import Mathlib

/-!
Verification development for the butler-ci-cli core
(Path Codec, Tree Walker, Build Query Engine, Stage Resolver, Log Streamer).

JavaScript strings handled by the path codec are modelled as `List Char`
(`JStr`).  Each definition is a direct shallow embedding of the
corresponding TypeScript function; scripted server responses replace the
HTTP transport.
-/

namespace Butler

/-- JavaScript string, modelled as a list of characters. -/
abbrev JStr := List Char

/-- The characters of `"job"`. -/
def jobSeg : JStr := ['j', 'o', 'b']

/-- The characters of `"api"`. -/
def apiSeg : JStr := ['a', 'p', 'i']

/-- The characters of `"json"`. -/
def jsonSeg : JStr := ['j', 's', 'o', 'n']

/-- The characters of the folder-navigation token `"/job/"`. -/
def jobSep : JStr := ['/', 'j', 'o', 'b', '/']

/-- The characters of the URL suffix `"/api/json"`. -/
def apiSuffix : JStr := ['/', 'a', 'p', 'i', '/', 'j', 's', 'o', 'n']

/-- Embedding of `path.replace(/\//g, '/job/')`: every `'/'` is replaced
by the five characters of `"/job/"`. -/
def replSlash : JStr → JStr
  | [] => []
  | c :: cs => if c = '/' then jobSep ++ replSlash cs else c :: replSlash cs

/-- Embedding of `buildApiUrl` (src/unnamed/part_000, lines 74-76):
`path ? /job/${path.replace(/\//g, '/job/')}/api/json : /api/json`. -/
def buildApiUrl (path : JStr) : JStr :=
  if path = [] then '/' :: (apiSeg ++ '/' :: jsonSeg)
  else jobSep ++ replSlash path ++ apiSuffix

/-- `s.split('/')` on a JavaScript string: splitting on the delimiter,
keeping empty segments; the empty string yields `[""]`. -/
def splitSlash : JStr → List JStr
  | [] => [[]]
  | c :: cs =>
    match splitSlash cs with
    | [] => []
    | h :: t => if c = '/' then [] :: h :: t else (c :: h) :: t

/-- Joining segments with the `'/'` delimiter (inverse of `splitSlash`). -/
def joinSlash : List JStr → JStr
  | [] => []
  | s :: [] => s
  | s :: r :: rest => s ++ '/' :: joinSlash (r :: rest)

/-- Joining segments with the `"/job/"` navigation token. -/
def joinJob : List JStr → JStr
  | [] => []
  | s :: [] => s
  | s :: r :: rest => s ++ jobSep ++ joinJob (r :: rest)

/-- Whether the string starts with the five characters of `"/job/"`. -/
def startsWithJobSep (s : JStr) : Bool := s.take 5 = jobSep

/-- Number of non-overlapping occurrences of the `"/job/"` marker,
scanning left to right and consuming each marker whole. -/
def countJob (s : JStr) : Nat :=
  match s with
  | [] => 0
  | c :: cs =>
    if startsWithJobSep (c :: cs) then 1 + countJob (cs.drop 4) else countJob cs
termination_by s.length
decreasing_by
  · simp only [List.length_cons, List.length_drop]
    omega
  · simp only [List.length_cons]
    omega

/-- The slash-separated components the encoded URL is expected to have:
a `"job"` marker before each segment. -/
def jobParts : List JStr → List JStr
  | [] => []
  | s :: rest => jobSeg :: s :: jobParts rest

/-- Reconstructing segments from the slash-separated URL components:
alternating `"job"` markers and segments, closed by `"api"`, `"json"`. -/
def decodeAux : List JStr → Option (List JStr)
  | a :: b :: [] => if a = apiSeg ∧ b = jsonSeg then some [] else none
  | j :: s :: rest => if j = jobSeg then (decodeAux rest).map (fun l => s :: l) else none
  | _ => none

/-- Reconstructing the segment sequence from an encoded URL. -/
def decodeUrl (u : JStr) : Option (List JStr) :=
  match splitSlash u with
  | [] => none
  | e :: rest => if e = [] then decodeAux rest else none

/-! ## Build Query Engine (`getBuilds`, src/unnamed/part_000 lines 451-517) -/

/-- Sort key of a build query: `options.sortBy`, either `number` or
`timestamp`. -/
inductive SortKey where
  | number
  | timestamp
deriving DecidableEq

/-- Sort direction of a build query: `options.sortOrder`. -/
inductive SortOrd where
  | asc
  | desc
deriving DecidableEq

/-- One build as returned by the server (`BuildInfo` in the source);
`result` is `null` or a string, `building` the in-progress flag. -/
structure BuildRec where
  number : Int
  result : Option String
  timestamp : Int
  duration : Int
  building : Bool
deriving DecidableEq

/-- `BuildListOptions` of the source: every field optional. -/
structure BuildListOptions where
  status : Option String
  branch : Option String
  startDate : Option Int
  endDate : Option Int
  offset : Option Nat
  limit : Option Nat
  sortBy : Option SortKey
  sortOrder : Option SortOrd
deriving DecidableEq

/-- `s.toUpperCase()`: uppercase every character. -/
def jsToUpper (s : String) : String := ⟨s.data.map Char.toUpper⟩

/-- JavaScript falsiness of `build.result`: `null` (here `none`) or the
empty string. -/
def resultFalsy (r : Option String) : Bool :=
  match r with
  | none => true
  | some s => s = ""

/-- The status filter predicate of `getBuilds`:
`if (!build.result && statusFilter === 'RUNNING') return build.building;
return build.result === statusFilter;` where `statusFilter` is the
uppercased option. -/
def statusMatches (stUp : String) (b : BuildRec) : Bool :=
  if resultFalsy b.result && stUp = "RUNNING" then b.building
  else
    match b.result with
    | some s => s = stUp
    | none => false

/-- `if (options.status) { ... builds.filter(...) }`: the filter is skipped
when the option is absent or the empty string (JavaScript falsiness). -/
def applyStatusFilter (builds : List BuildRec) (status : Option String) :
    List BuildRec :=
  match status with
  | none => builds
  | some st => if st = "" then builds else builds.filter (statusMatches (jsToUpper st))

/-- `if (options.startDate) { builds.filter(b => b.timestamp >= start) }`;
the `Date` is modelled by its `getTime()` value. -/
def applyStartFilter (builds : List BuildRec) (startDate : Option Int) :
    List BuildRec :=
  match startDate with
  | none => builds
  | some d => builds.filter (fun b => d ≤ b.timestamp)

/-- `if (options.endDate) { builds.filter(b => b.timestamp <= end) }`. -/
def applyEndFilter (builds : List BuildRec) (endDate : Option Int) :
    List BuildRec :=
  match endDate with
  | none => builds
  | some d => builds.filter (fun b => b.timestamp ≤ d)

/-- The filter pipeline of `getBuilds`, in source order:
status, then start date, then end date. -/
def filteredBuilds (builds : List BuildRec) (o : BuildListOptions) :
    List BuildRec :=
  applyEndFilter (applyStartFilter (applyStatusFilter builds o.status)
    o.startDate) o.endDate

/-- The comparison value picked by the sort key. -/
def keyOf (k : SortKey) (b : BuildRec) : Int :=
  match k with
  | .number => b.number
  | .timestamp => b.timestamp

/-- The JavaScript comparator `asc ? aValue - bValue : bValue - aValue`
expressed as a boolean "sorts-before-or-equal" relation. -/
def sortLe (k : SortKey) (ord : SortOrd) (a b : BuildRec) : Bool :=
  match ord with
  | .asc => keyOf k a ≤ keyOf k b
  | .desc => keyOf k b ≤ keyOf k a

/-- JavaScript `v || d` on an optional number: `undefined` and `0` are
falsy and yield the default. -/
def jsOrNat (v : Option Nat) (d : Nat) : Nat :=
  match v with
  | none => d
  | some n => if n = 0 then d else n

/-- The sort stage of `getBuilds`: a stable sort (JavaScript
`Array.prototype.sort`) by the resolved key and order, with defaults
`sortBy='number'`, `sortOrder='desc'`. -/
def sortedBuilds (builds : List BuildRec) (o : BuildListOptions) :
    List BuildRec :=
  (filteredBuilds builds o).mergeSort
    (sortLe (o.sortBy.getD .number) (o.sortOrder.getD .desc))

/-- Embedding of `getBuilds` (on an already-fetched build list): filter,
stable sort, then `slice(offset, offset + limit)` with
`offset = options.offset || 0` and `limit = options.limit || 50`. -/
def getBuilds (builds : List BuildRec) (o : BuildListOptions) :
    List BuildRec :=
  ((sortedBuilds builds o).drop (jsOrNat o.offset 0)).take (jsOrNat o.limit 50)

/-- The builds 40-45 of the spec's test vector, newest first, with results
`[S, S, F, S, U, S]` for 40 to 45. -/
def demoBuilds : List BuildRec :=
  [⟨45, some "SUCCESS", 450, 10, false⟩,
   ⟨44, some "UNSTABLE", 440, 10, false⟩,
   ⟨43, some "SUCCESS", 430, 10, false⟩,
   ⟨42, some "FAILURE", 420, 10, false⟩,
   ⟨41, some "SUCCESS", 410, 10, false⟩,
   ⟨40, some "SUCCESS", 400, 10, false⟩]

/-! ## Log Streamer (`streamLogs`, src/src/commands/logs.ts lines 91-174) -/

/-- `ProgressiveLogResult` of the source: chunk text, the `X-More-Data`
flag, and the `X-Text-Size` total size. -/
structure ProgRes where
  text : String
  hasMore : Bool
  size : Nat
deriving DecidableEq

/-- The fields of the build-info check used by the streaming loop. -/
structure StreamBuildInfo where
  result : Option String
  building : Bool
deriving DecidableEq

/-- One scripted loop iteration: the progressive-log fetch, then the
build-info fetch; `.error` scripts a thrown transport error. -/
structure StreamIter where
  log : Except Unit ProgRes
  info : Except Unit StreamBuildInfo

/-- How a run of the streaming loop ended: build completed with its final
result, a scripted iteration error ended the loop, or the script was
exhausted with the loop still polling. -/
inductive StreamOutcome where
  | done (result : Option String)
  | errored
  | pending
deriving DecidableEq

/-- Observable trace of a streaming run: chunks written in order, cursor
value after each completed fetch, number of iterations consumed, final
cursor, and the outcome. -/
structure StreamResult where
  chunks : List String
  cursors : List Nat
  consumed : Nat
  cursor : Nat
  outcome : StreamOutcome
deriving DecidableEq

/-- Embedding of the `while (isRunning)` loop of `streamLogs`: fetch the
progressive chunk at the cursor, emit its text when non-empty, set the
cursor to the reported size (`start = result.size`), fetch build info, and
stop when `!buildInfo.building && !result.hasMore`; a thrown error inside
the loop body sets `isRunning = false`. -/
def runStream (start : Nat) : List StreamIter → StreamResult
  | [] => ⟨[], [], 0, start, .pending⟩
  | it :: rest =>
    match it.log with
    | .error _ => ⟨[], [], 1, start, .errored⟩
    | .ok r =>
      let emitted := if r.text = "" then [] else [r.text]
      match it.info with
      | .error _ => ⟨emitted, [r.size], 1, r.size, .errored⟩
      | .ok bi =>
        if !bi.building && !r.hasMore then
          ⟨emitted, [r.size], 1, r.size, .done bi.result⟩
        else
          let res := runStream r.size rest
          ⟨emitted ++ res.chunks, r.size :: res.cursors, 1 + res.consumed,
            res.cursor, res.outcome⟩

/-- The successful payload of a scripted fetch, if any. -/
def okPart (e : Except Unit ProgRes) : Option ProgRes :=
  match e with
  | .ok r => some r
  | .error _ => none

/-! ## Stage Resolver (`getWorkflowSteps`, src/unnamed/part_000 lines 552-633) -/

/-- JavaScript `v || d` on an optional string: `undefined`, `null` and the
empty string are falsy and yield the default. -/
def jsOrStr (v : Option String) (d : String) : String :=
  match v with
  | none => d
  | some s => if s = "" then d else s

/-- The `error` object of a raw wfapi step. -/
structure RawErr where
  message : Option String
  errType : Option String
deriving DecidableEq

/-- A raw step (`stageFlowNodes` entry) of the wfapi describe payload. -/
structure RawStep where
  id : Option String
  name : Option String
  status : Option String
  startTimeMillis : Option Int
  durationMillis : Option Int
  pauseDurationMillis : Option Int
  error : Option RawErr
deriving DecidableEq

/-- A raw stage of the wfapi describe payload. -/
structure RawStage where
  id : Option String
  name : Option String
  status : Option String
  startTimeMillis : Option Int
  durationMillis : Option Int
  pauseDurationMillis : Option Int
  stageFlowNodes : Option (List RawStep)
deriving DecidableEq

/-- The wfapi describe response; `stages` is absent when the payload has
no `stages` field. -/
structure WfapiData where
  stages : Option (List RawStage)
deriving DecidableEq

/-- `WorkflowStep.error` of the source. -/
structure WfErr where
  message : String
  errType : String
deriving DecidableEq

/-- `WorkflowStep` of the source. -/
structure WorkflowStep where
  id : String
  name : String
  status : String
  startTimeMillis : Option Int
  durationMillis : Option Int
  pauseDurationMillis : Option Int
  error : Option WfErr
deriving DecidableEq

/-- `WorkflowStage` of the source. -/
structure WorkflowStage where
  id : String
  name : String
  status : String
  startTimeMillis : Option Int
  durationMillis : Option Int
  pauseDurationMillis : Option Int
  stageFlowNodes : List WorkflowStep
deriving DecidableEq

/-- One entry of the build's `actions` array, by its `_class`. -/
structure BuildAction where
  cls : Option JStr
deriving DecidableEq

/-- The basic build metadata used by the fallback path. -/
structure BuildData where
  actions : Option (List BuildAction)
  result : Option String
  building : Bool
  timestamp : Option Int
  duration : Option Int
deriving DecidableEq

/-- The characters of `"FlowGraphAction"`. -/
def flowGraphStr : JStr :=
  ['F', 'l', 'o', 'w', 'G', 'r', 'a', 'p', 'h', 'A', 'c', 't', 'i', 'o', 'n']

/-- The characters of `"FlowExecutionList"`. -/
def flowExecStr : JStr :=
  ['F', 'l', 'o', 'w', 'E', 'x', 'e', 'c', 'u', 't', 'i', 'o', 'n', 'L', 'i',
   's', 't']

/-- `hay.includes(needle)`: some suffix of the haystack starts with the
needle. -/
def jsIncludes (hay needle : JStr) : Bool :=
  match hay with
  | [] => needle.isEmpty
  | _ :: t => needle.isPrefixOf hay || jsIncludes t needle

/-- `action._class?.includes('FlowGraphAction') ||
action._class?.includes('FlowExecutionList')`. -/
def isFlowAction (a : BuildAction) : Bool :=
  match a.cls with
  | none => false
  | some c => jsIncludes c flowGraphStr || jsIncludes c flowExecStr

/-- `buildData.actions?.find(...)` yields a truthy value iff the actions
array is present and contains a flow marker. -/
def hasFlowAction (bd : BuildData) : Bool :=
  match bd.actions with
  | none => false
  | some l => l.any isFlowAction

/-- `buildData.result || (buildData.building ? 'IN_PROGRESS' : 'UNKNOWN')`. -/
def fallbackStatus (bd : BuildData) : String :=
  jsOrStr bd.result (if bd.building then "IN_PROGRESS" else "UNKNOWN")

/-- Mapping of one raw wfapi step (lines 573-584 of the source). -/
def mapStep (st : RawStep) : WorkflowStep :=
  ⟨jsOrStr st.id "", jsOrStr st.name "Unknown", jsOrStr st.status "UNKNOWN",
    st.startTimeMillis, st.durationMillis, st.pauseDurationMillis,
    st.error.map (fun e => ⟨jsOrStr e.message "", jsOrStr e.errType ""⟩)⟩

/-- Mapping of one raw wfapi stage (lines 566-585 of the source);
`stage.stageFlowNodes?.map(...) || []`. -/
def mapStage (st : RawStage) : WorkflowStage :=
  ⟨jsOrStr st.id "", jsOrStr st.name "Unknown", jsOrStr st.status "UNKNOWN",
    st.startTimeMillis, st.durationMillis, st.pauseDurationMillis,
    (st.stageFlowNodes.map (List.map mapStep)).getD []⟩

/-- The fallback path of `getWorkflowSteps`: fetch basic build metadata
(whose failure is rethrown as the hard error), then return the single
`"Build Execution"` stage when a flow marker is present in the action
list, else the single generic `"Build"` stage. -/
def workflowFallback (build : Except Unit BuildData) :
    Except Unit (List WorkflowStage) :=
  match build with
  | .error e => .error e
  | .ok bd =>
    if hasFlowAction bd then
      .ok [⟨"1", "Build Execution", fallbackStatus bd, bd.timestamp,
        bd.duration, none, []⟩]
    else
      .ok [⟨"1", "Build", fallbackStatus bd, bd.timestamp, bd.duration,
        none, []⟩]

/-- Embedding of `getWorkflowSteps` over scripted responses for the wfapi
describe fetch and the basic build-metadata fetch: if the wfapi fetch
succeeds and its payload has a `stages` field, the mapped stages are
returned (even when the array is empty); otherwise the fallback path
runs. -/
def getWorkflowSteps (wfapi : Except Unit WfapiData)
    (build : Except Unit BuildData) : Except Unit (List WorkflowStage) :=
  match wfapi with
  | .error _ => workflowFallback build
  | .ok d =>
    match d.stages with
    | some stages => .ok (stages.map mapStage)
    | none => workflowFallback build

/-! ## Tree Walker (`getAllJobsRecursive` / `processJenkinsItem`,
src/unnamed/part_000 lines 47-102) -/

/-- A scripted server item: its `name`, `_class`, `url`, `color`, and the
scripted result of requesting its own path (`none` models a failed
request or a response without a `jobs` field; relevant only when the item
classifies as a folder, since only then does the walker request it). -/
inductive SrvNode where
  | mk (name : JStr) (cls : JStr) (url : JStr) (color : Option JStr)
      (sub : Option (List SrvNode))

/-- The `name` of a scripted item. -/
def SrvNode.name : SrvNode → JStr
  | .mk n _ _ _ _ => n

/-- The `_class` of a scripted item. -/
def SrvNode.cls : SrvNode → JStr
  | .mk _ c _ _ _ => c

/-- The `url` of a scripted item. -/
def SrvNode.url : SrvNode → JStr
  | .mk _ _ u _ _ => u

/-- The `color` of a scripted item. -/
def SrvNode.color : SrvNode → Option JStr
  | .mk _ _ _ c _ => c

/-- The scripted response for the item's own path. -/
def SrvNode.sub : SrvNode → Option (List SrvNode)
  | .mk _ _ _ _ s => s

/-- The four folder `_class` identifiers of the source's allow-list. -/
def folderClasses : List JStr :=
  [['c', 'o', 'm', '.', 'c', 'l', 'o', 'u', 'd', 'b', 'e', 'e', 's', '.',
     'h', 'u', 'd', 's', 'o', 'n', '.', 'p', 'l', 'u', 'g', 'i', 'n', 's',
     '.', 'f', 'o', 'l', 'd', 'e', 'r', '.', 'F', 'o', 'l', 'd', 'e', 'r'],
   ['j', 'e', 'n', 'k', 'i', 'n', 's', '.', 'b', 'r', 'a', 'n', 'c', 'h',
     '.', 'O', 'r', 'g', 'a', 'n', 'i', 'z', 'a', 't', 'i', 'o', 'n', 'F',
     'o', 'l', 'd', 'e', 'r'],
   ['o', 'r', 'g', '.', 'j', 'e', 'n', 'k', 'i', 'n', 's', 'c', 'i', '.',
     'p', 'l', 'u', 'g', 'i', 'n', 's', '.', 'w', 'o', 'r', 'k', 'f', 'l',
     'o', 'w', '.', 'm', 'u', 'l', 't', 'i', 'b', 'r', 'a', 'n', 'c', 'h',
     '.', 'W', 'o', 'r', 'k', 'f', 'l', 'o', 'w', 'M', 'u', 'l', 't', 'i',
     'B', 'r', 'a', 'n', 'c', 'h', 'P', 'r', 'o', 'j', 'e', 'c', 't'],
   ['h', 'u', 'd', 's', 'o', 'n', '.', 'm', 'o', 'd', 'e', 'l', '.', 'F',
     'o', 'l', 'd', 'e', 'r']]

/-- `isFolder` of the source: membership in the fixed allow-list. -/
def isFolder (cls : JStr) : Bool := folderClasses.contains cls

/-- Whether a tree item is a job or a folder. -/
inductive ItemType where
  | job
  | folder
deriving DecidableEq

/-- `JobTreeItem` of the source. -/
structure JobTreeItem where
  name : JStr
  fullName : JStr
  itemType : ItemType
  url : JStr
  level : Nat
  color : Option JStr
deriving DecidableEq

mutual

/-- Embedding of `getAllJobsRecursive(path)` on the scripted response for
`path`: a failed request (or a payload without `jobs`) yields `[]`;
otherwise every returned item is processed in order. -/
def walkResp (rootPath : JStr) : Option (List SrvNode) → List JobTreeItem
  | none => []
  | some items => walkList rootPath items

/-- The `for (const item of response.data.jobs)` loop. -/
def walkList (rootPath : JStr) : List SrvNode → List JobTreeItem
  | [] => []
  | item :: rest => processItem rootPath item ++ walkList rootPath rest

/-- Embedding of `processJenkinsItem(item, parentPath)`: build the node
(`fullName` by string concatenation, `level` from
`parentPath.split('/').length` with `0` for the root), then append all
descendants when the item classifies as a folder. -/
def processItem (parentPath : JStr) : SrvNode → List JobTreeItem
  | .mk name cls url color sub =>
    ⟨name,
      if parentPath = [] then name else parentPath ++ '/' :: name,
      if isFolder cls then .folder else .job,
      url,
      if parentPath = [] then 0 else (splitSlash parentPath).length,
      color⟩ ::
    (if isFolder cls then
      walkResp (if parentPath = [] then name else parentPath ++ '/' :: name) sub
    else [])

end

mutual

/-- Item names in a node are non-empty and delimiter-free (the spec's
JobPath invariant), recursively. -/
def nodeClean : SrvNode → Bool
  | .mk name _ _ _ sub => decide (name ≠ []) && decide ('/' ∉ name) && respClean sub

/-- Cleanliness of a scripted response. -/
def respClean : Option (List SrvNode) → Bool
  | none => true
  | some l => listClean l

/-- Cleanliness of a scripted item list. -/
def listClean : List SrvNode → Bool
  | [] => true
  | n :: rest => nodeClean n && listClean rest

end

mutual

/-- Modelled from the spec (§4.2): the pre-order flattening over
segment-list paths — each child node carries `depth` equal to the number
of segments in its parent path and is immediately followed by all of its
descendants, siblings in server order. -/
def preorderResp (parent : List JStr) : Option (List SrvNode) → List JobTreeItem
  | none => []
  | some items => preorderList parent items

/-- Pre-order flattening of a sibling list. -/
def preorderList (parent : List JStr) : List SrvNode → List JobTreeItem
  | [] => []
  | item :: rest => preorderItem parent item ++ preorderList parent rest

/-- Pre-order flattening of one item. -/
def preorderItem (parent : List JStr) : SrvNode → List JobTreeItem
  | .mk name cls url color sub =>
    ⟨name, joinSlash (parent ++ [name]),
      if isFolder cls then .folder else .job, url, parent.length, color⟩ ::
    (if isFolder cls then preorderResp (parent ++ [name]) sub else [])

end

/-- The characters of the folder class `"hudson.model.Folder"`. -/
def hmFolderCls : JStr :=
  ['h', 'u', 'd', 's', 'o', 'n', '.', 'm', 'o', 'd', 'e', 'l', '.', 'F', 'o',
   'l', 'd', 'e', 'r']

/-- The spec's traversal-completeness scenario: a root containing a folder
with two jobs, then a sibling job. -/
def demoTree : Option (List SrvNode) :=
  some [.mk ['b', 'e'] hmFolderCls ['u', '1'] none
          (some [.mk ['a'] ['j'] ['u', '2'] (some ['b']) none,
                 .mk ['c'] ['j'] ['u', '3'] none none]),
        .mk ['d'] ['j'] ['u', '4'] none none]

theorem splitSlash_ne_nil (s : JStr) : splitSlash s ≠ [] := by
  induction s with
  | nil => simp [splitSlash]
  | cons c cs ih =>
    simp only [splitSlash]
    rcases h : splitSlash cs with _ | ⟨x, t⟩
    · exact absurd h ih
    · by_cases hc : c = '/' <;> simp [hc]

theorem splitSlash_cons_eq (c : Char) (cs : JStr) (h : JStr) (t : List JStr)
    (hs : splitSlash cs = h :: t) :
    splitSlash (c :: cs) = if c = '/' then [] :: h :: t else (c :: h) :: t := by
  simp [splitSlash, hs]

theorem splitSlash_slash (cs : JStr) :
    splitSlash ('/' :: cs) = [] :: splitSlash cs := by
  rcases h : splitSlash cs with _ | ⟨x, t⟩
  · exact absurd h (splitSlash_ne_nil cs)
  · simp [splitSlash_cons_eq '/' cs x t h]

theorem splitSlash_seg (seg : JStr) (hseg : '/' ∉ seg) (rest : JStr) :
    splitSlash (seg ++ '/' :: rest) = seg :: splitSlash rest := by
  induction seg with
  | nil => simpa using splitSlash_slash rest
  | cons c cs ih =>
    have hc : c ≠ '/' := fun h => hseg (h ▸ List.mem_cons_self c cs)
    have hcs : '/' ∉ cs := fun h => hseg (List.mem_cons_of_mem c h)
    have := ih hcs
    rw [List.cons_append, splitSlash_cons_eq c (cs ++ '/' :: rest) cs (splitSlash rest) this]
    simp [hc]

theorem splitSlash_nosplit (seg : JStr) (hseg : '/' ∉ seg) :
    splitSlash seg = [seg] := by
  induction seg with
  | nil => simp [splitSlash]
  | cons c cs ih =>
    have hc : c ≠ '/' := fun h => hseg (h ▸ List.mem_cons_self c cs)
    have hcs : '/' ∉ cs := fun h => hseg (List.mem_cons_of_mem c h)
    rw [splitSlash_cons_eq c cs cs [] (ih hcs)]
    simp [hc]

theorem splitSlash_joinSlash (segs : List JStr) (hne : segs ≠ [])
    (hclean : ∀ s ∈ segs, '/' ∉ s) :
    splitSlash (joinSlash segs) = segs := by
  induction segs with
  | nil => exact absurd rfl hne
  | cons s rest ih =>
    rcases rest with _ | ⟨r, rs⟩
    · exact splitSlash_nosplit s (hclean s (List.mem_cons_self s []))
    · have hs : '/' ∉ s := hclean s (List.mem_cons_self s (r :: rs))
      have hrest : ∀ x ∈ r :: rs, '/' ∉ x := fun x hx =>
        hclean x (List.mem_cons_of_mem s hx)
      rw [joinSlash, splitSlash_seg s hs, ih (by simp) hrest]

theorem joinSlash_splitSlash (p : JStr) : joinSlash (splitSlash p) = p := by
  induction p with
  | nil => simp [splitSlash, joinSlash]
  | cons c cs ih =>
    rcases h : splitSlash cs with _ | ⟨x, t⟩
    · exact absurd h (splitSlash_ne_nil cs)
    · rw [splitSlash_cons_eq c cs x t h]
      by_cases hc : c = '/'
      · subst hc
        simp only [if_pos rfl, joinSlash]
        rw [h] at ih
        simpa [joinSlash] using congrArg (fun q => '/' :: q) ih
      · rw [if_neg hc]
        rcases t with _ | ⟨y, ys⟩
        · rw [h] at ih
          simpa [joinSlash] using congrArg (fun q => c :: q) ih
        · rw [h] at ih
          simp only [joinSlash] at ih ⊢
          rw [← ih]
          simp

theorem splitSlash_clean (p : JStr) : ∀ s ∈ splitSlash p, '/' ∉ s := by
  induction p with
  | nil => simp [splitSlash]
  | cons c cs ih =>
    rcases h : splitSlash cs with _ | ⟨x, t⟩
    · exact absurd h (splitSlash_ne_nil cs)
    · rw [splitSlash_cons_eq c cs x t h]
      by_cases hc : c = '/'
      · intro s hs
        rw [if_pos hc] at hs
        rcases List.mem_cons.mp hs with hs | hs
        · simp [hs]
        · exact ih s (h ▸ hs)
      · intro s hs
        rw [if_neg hc] at hs
        rcases List.mem_cons.mp hs with hs | hs
        · subst hs
          intro hmem
          rcases List.mem_cons.mp hmem with hmem | hmem
          · exact hc hmem.symm
          · exact ih x (h ▸ List.mem_cons_self x t) hmem
        · exact ih s (h ▸ List.mem_cons_of_mem x hs)

theorem replSlash_slash (rest : JStr) :
    replSlash ('/' :: rest) = jobSep ++ replSlash rest := by
  simp [replSlash]

theorem replSlash_seg (seg : JStr) (hseg : '/' ∉ seg) (rest : JStr) :
    replSlash (seg ++ rest) = seg ++ replSlash rest := by
  induction seg with
  | nil => simp
  | cons c cs ih =>
    have hc : c ≠ '/' := fun h => hseg (h ▸ List.mem_cons_self c cs)
    have hcs : '/' ∉ cs := fun h => hseg (List.mem_cons_of_mem c h)
    simp [replSlash, hc, ih hcs]

theorem replSlash_joinSlash (segs : List JStr)
    (hclean : ∀ s ∈ segs, '/' ∉ s) :
    replSlash (joinSlash segs) = joinJob segs := by
  induction segs with
  | nil => simp [joinSlash, joinJob, replSlash]
  | cons s rest ih =>
    rcases rest with _ | ⟨r, rs⟩
    · have hs : '/' ∉ s := hclean s (List.mem_cons_self s [])
      simpa [joinSlash, joinJob, replSlash] using replSlash_seg s hs []
    · have hs : '/' ∉ s := hclean s (List.mem_cons_self s (r :: rs))
      have hrest : ∀ x ∈ r :: rs, '/' ∉ x := fun x hx =>
        hclean x (List.mem_cons_of_mem s hx)
      rw [joinSlash, joinJob, replSlash_seg s hs, replSlash_slash, ih hrest]
      simp

/-- Nonempty head segment makes the joined path nonempty. -/
theorem joinSlash_cons_ne_nil (s : JStr) (rest : List JStr) (hs : s ≠ []) :
    joinSlash (s :: rest) ≠ [] := by
  rcases rest with _ | ⟨r, rs⟩
  · simpa [joinSlash] using hs
  · simp only [joinSlash]
    rcases s with _ | ⟨c, cs⟩
    · exact absurd rfl hs
    · simp

theorem countJob_nil : countJob [] = 0 := by
  rw [countJob]

theorem countJob_cons (c : Char) (cs : JStr) :
    countJob (c :: cs) =
      if startsWithJobSep (c :: cs) then 1 + countJob (cs.drop 4)
      else countJob cs := by
  rw [countJob]

theorem startsWithJobSep_cons_ne {c : Char} (h : c ≠ '/') (cs : JStr) :
    startsWithJobSep (c :: cs) = false := by
  apply decide_eq_false
  intro hEq
  have h5 : (c :: cs).take 5 = c :: cs.take 4 := rfl
  rw [h5] at hEq
  rw [show jobSep = '/' :: ['j', 'o', 'b', '/'] from rfl] at hEq
  injection hEq with h1 h2
  exact h h1

theorem countJob_jobSep (rest : JStr) :
    countJob (jobSep ++ rest) = 1 + countJob rest := by
  have h : jobSep ++ rest = '/' :: ('j' :: 'o' :: 'b' :: '/' :: rest) := rfl
  rw [h, countJob_cons]
  have hs : startsWithJobSep ('/' :: 'j' :: 'o' :: 'b' :: '/' :: rest) = true := by
    apply decide_eq_true
    rfl
  rw [hs]
  simp

theorem countJob_seg (seg : JStr) (hseg : '/' ∉ seg) (rest : JStr) :
    countJob (seg ++ rest) = countJob rest := by
  induction seg with
  | nil => simp
  | cons c cs ih =>
    have hc : c ≠ '/' := fun h => hseg (h ▸ List.mem_cons_self c cs)
    have hcs : '/' ∉ cs := fun h => hseg (List.mem_cons_of_mem c h)
    rw [List.cons_append, countJob_cons, startsWithJobSep_cons_ne hc]
    simp [ih hcs]

theorem countJob_apiSuffix : countJob apiSuffix = 0 := by
  have h1 : apiSuffix = '/' :: (apiSeg ++ '/' :: jsonSeg) := rfl
  rw [h1, countJob_cons]
  have hs : startsWithJobSep ('/' :: (apiSeg ++ '/' :: jsonSeg)) = false := by decide
  rw [hs]
  simp only [if_false, Bool.false_eq_true]
  rw [countJob_seg apiSeg (by decide), countJob_cons]
  have hs2 : startsWithJobSep ('/' :: jsonSeg) = false := by decide
  rw [hs2]
  simp only [if_false, Bool.false_eq_true]
  have h3 : jsonSeg = jsonSeg ++ [] := by simp
  rw [h3, countJob_seg jsonSeg (by decide), countJob_nil]

theorem countJob_url (segs : List JStr) (hne : segs ≠ [])
    (hclean : ∀ s ∈ segs, '/' ∉ s) :
    countJob (jobSep ++ joinJob segs ++ apiSuffix) = segs.length := by
  induction segs with
  | nil => exact absurd rfl hne
  | cons s rest ih =>
    rcases rest with _ | ⟨r, rs⟩
    · have hs : '/' ∉ s := hclean s (List.mem_cons_self s [])
      rw [List.append_assoc, countJob_jobSep, joinJob, countJob_seg s hs,
        countJob_apiSuffix]
      simp
    · have hs : '/' ∉ s := hclean s (List.mem_cons_self s (r :: rs))
      have hrest : ∀ x ∈ r :: rs, '/' ∉ x := fun x hx =>
        hclean x (List.mem_cons_of_mem s hx)
      rw [List.append_assoc, countJob_jobSep, joinJob]
      rw [show (s ++ jobSep ++ joinJob (r :: rs)) ++ apiSuffix
            = s ++ (jobSep ++ joinJob (r :: rs) ++ apiSuffix) by simp
      ]
      rw [countJob_seg s hs, ih (by simp) hrest]
      simp only [List.length_cons]
      omega

theorem decodeAux_jobParts (segs : List JStr) :
    decodeAux (jobParts segs ++ [apiSeg, jsonSeg]) = some segs := by
  induction segs with
  | nil => simp [jobParts, decodeAux]
  | cons s rest ih =>
    rcases h : jobParts rest ++ [apiSeg, jsonSeg] with _ | ⟨y, ys⟩
    · simp at h
    · have h2 : jobParts (s :: rest) ++ [apiSeg, jsonSeg]
          = jobSeg :: s :: (y :: ys) := by
        rw [jobParts]
        simp [h]
      rw [h2]
      rw [show decodeAux (jobSeg :: s :: (y :: ys))
            = if jobSeg = jobSeg then (decodeAux (y :: ys)).map (fun l => s :: l)
              else none from rfl]
      rw [← h, ih]
      simp

theorem splitSlash_joinJob (segs : List JStr) (hne : segs ≠ [])
    (hclean : ∀ s ∈ segs, '/' ∉ s) :
    jobSeg :: splitSlash (joinJob segs ++ apiSuffix)
      = jobParts segs ++ [apiSeg, jsonSeg] := by
  induction segs with
  | nil => exact absurd rfl hne
  | cons s rest ih =>
    rcases rest with _ | ⟨r, rs⟩
    · have hs : '/' ∉ s := hclean s (List.mem_cons_self s [])
      rw [joinJob,
        show s ++ apiSuffix = s ++ '/' :: (apiSeg ++ '/' :: jsonSeg) from rfl,
        splitSlash_seg s hs, splitSlash_seg apiSeg (by decide),
        splitSlash_nosplit jsonSeg (by decide)]
      simp [jobParts]
    · have hs : '/' ∉ s := hclean s (List.mem_cons_self s (r :: rs))
      have hrest : ∀ x ∈ r :: rs, '/' ∉ x := fun x hx =>
        hclean x (List.mem_cons_of_mem s hx)
      rw [joinJob,
        show (s ++ jobSep ++ joinJob (r :: rs)) ++ apiSuffix
          = s ++ '/' :: (jobSeg ++ '/' :: (joinJob (r :: rs) ++ apiSuffix)) by
            simp [jobSep, jobSeg],
        splitSlash_seg s hs, splitSlash_seg jobSeg (by decide)]
      rw [jobParts]
      have := ih (by simp) hrest
      simp only [List.cons_append]
      rw [← this]

theorem splitSlash_buildApiUrl (segs : List JStr) (hne : segs ≠ [])
    (hclean : ∀ s ∈ segs, '/' ∉ s) (hjoin : joinSlash segs ≠ []) :
    splitSlash (buildApiUrl (joinSlash segs))
      = [] :: (jobParts segs ++ [apiSeg, jsonSeg]) := by
  rw [buildApiUrl, if_neg hjoin, replSlash_joinSlash segs hclean]
  rw [show jobSep ++ joinJob segs ++ apiSuffix
        = '/' :: (jobSeg ++ '/' :: (joinJob segs ++ apiSuffix)) by simp [jobSep, jobSeg]]
  rw [splitSlash_slash, splitSlash_seg jobSeg (by decide)]
  rw [show jobSeg :: splitSlash (joinJob segs ++ apiSuffix)
        = jobParts segs ++ [apiSeg, jsonSeg] from splitSlash_joinJob segs hne hclean]

theorem decodeUrl_buildApiUrl (segs : List JStr) (hne : segs ≠ [])
    (hclean : ∀ s ∈ segs, '/' ∉ s) (hjoin : joinSlash segs ≠ []) :
    decodeUrl (buildApiUrl (joinSlash segs)) = some segs := by
  rw [decodeUrl, splitSlash_buildApiUrl segs hne hclean hjoin]
  simp [decodeAux_jobParts]

/-- C9: for segment lists whose segments are non-empty and free of the
delimiter, `buildApiUrl` (the Path Codec's encode) produces a URL with
exactly N `"/job/"` markers, the segments are recoverable from the URL
(round-trip identity), the empty path maps to the bare API endpoint, and
encode is injective on such segment lists. -/
theorem C9_encode_roundtrip (segs : List JStr) (hne : segs ≠ [])
    (hclean : ∀ s ∈ segs, s ≠ [] ∧ '/' ∉ s) :
    countJob (buildApiUrl (joinSlash segs)) = segs.length
    ∧ decodeUrl (buildApiUrl (joinSlash segs)) = some segs
    ∧ buildApiUrl [] = '/' :: (apiSeg ++ '/' :: jsonSeg)
    ∧ (∀ segs2, segs2 ≠ [] → (∀ s ∈ segs2, s ≠ [] ∧ '/' ∉ s) →
        buildApiUrl (joinSlash segs) = buildApiUrl (joinSlash segs2) →
        segs = segs2) := by
  have hclean2 : ∀ s ∈ segs, '/' ∉ s := fun s hs => (hclean s hs).2
  have hjoin : joinSlash segs ≠ [] := by
    rcases segs with _ | ⟨s, rest⟩
    · exact absurd rfl hne
    · exact joinSlash_cons_ne_nil s rest
        (hclean s (List.mem_cons_self s rest)).1
  refine ⟨?_, decodeUrl_buildApiUrl segs hne hclean2 hjoin, by simp [buildApiUrl], ?_⟩
  · rw [buildApiUrl, if_neg hjoin, replSlash_joinSlash segs hclean2]
    exact countJob_url segs hne hclean2
  · intro segs2 hne2 hclean2x heq
    have hclean2b : ∀ s ∈ segs2, '/' ∉ s := fun s hs => (hclean2x s hs).2
    have hjoin2 : joinSlash segs2 ≠ [] := by
      rcases segs2 with _ | ⟨s, rest⟩
      · exact absurd rfl hne2
      · exact joinSlash_cons_ne_nil s rest
          (hclean2x s (List.mem_cons_self s rest)).1
    have d1 := decodeUrl_buildApiUrl segs hne hclean2 hjoin
    have d2 := decodeUrl_buildApiUrl segs2 hne2 hclean2b hjoin2
    rw [heq, d2] at d1
    exact (Option.some.inj d1).symm

/-- C9 witness: instantiation at the concrete path `team/service`. -/
theorem C9_encode_roundtrip_witness :
    (['t', 'e', 'a', 'm'] :: [['s', 'e', 'r', 'v', 'i', 'c', 'e']] ≠ []
      ∧ ∀ s ∈ ['t', 'e', 'a', 'm'] :: [['s', 'e', 'r', 'v', 'i', 'c', 'e']],
          s ≠ [] ∧ '/' ∉ s)
    ∧ countJob (buildApiUrl
        (joinSlash (['t', 'e', 'a', 'm'] :: [['s', 'e', 'r', 'v', 'i', 'c', 'e']])))
      = (['t', 'e', 'a', 'm'] :: [['s', 'e', 'r', 'v', 'i', 'c', 'e']]).length := by
  refine ⟨⟨by decide, by decide⟩, ?_⟩
  exact (C9_encode_roundtrip _ (by decide) (by decide)).1

/-- C3 counterexample: the source string `a//b` contains an empty segment,
yet encode does not fail: it produces the URL `/job/a/job//job/b/api/json`. -/
theorem C3_empty_segment_counterexample :
    buildApiUrl ['a', '/', '/', 'b']
      = ['/', 'j', 'o', 'b', '/', 'a', '/', 'j', 'o', 'b', '/', '/', 'j', 'o',
         'b', '/', 'b', '/', 'a', 'p', 'i', '/', 'j', 's', 'o', 'n'] := by
  decide

/-- C3 amended: encode performs no validation and never fails; for every
non-empty source string — including strings with adjacent, leading or
trailing delimiters (empty segments) — it returns a URL from which the
original segment sequence, empty segments included, is still recoverable. -/
theorem C3_no_empty_segment_check (p : JStr) (hne : p ≠ []) :
    decodeUrl (buildApiUrl p) = some (splitSlash p) := by
  have hj : joinSlash (splitSlash p) = p := joinSlash_splitSlash p
  have hjoin : joinSlash (splitSlash p) ≠ [] := by rw [hj]; exact hne
  have := decodeUrl_buildApiUrl (splitSlash p) (splitSlash_ne_nil p)
    (splitSlash_clean p) hjoin
  rw [hj] at this
  exact this

/-- C3 amended witness: instantiation at the concrete string `a//b`. -/
theorem C3_no_empty_segment_check_witness :
    (['a', '/', '/', 'b'] : JStr) ≠ []
    ∧ decodeUrl (buildApiUrl ['a', '/', '/', 'b'])
        = some (splitSlash ['a', '/', '/', 'b']) :=
  ⟨by decide, C3_no_empty_segment_check ['a', '/', '/', 'b'] (by decide)⟩

theorem sortLe_trans (k : SortKey) (ord : SortOrd) :
    ∀ a b c, sortLe k ord a b = true → sortLe k ord b c = true →
      sortLe k ord a c = true := by
  intro a b c h1 h2
  cases ord <;> simp [sortLe] at h1 h2 ⊢ <;> omega

theorem sortLe_total (k : SortKey) (ord : SortOrd) :
    ∀ a b, sortLe k ord a b || sortLe k ord b a := by
  intro a b
  cases ord <;> simp [sortLe] <;> omega

theorem sortLe_refl (k : SortKey) (ord : SortOrd) (a b : BuildRec)
    (h : keyOf k a = keyOf k b) : sortLe k ord a b = true := by
  cases ord <;> simp [sortLe, h]

/-- C4 counterexample: with the status option `"RUNNING"`, a build whose
`building` flag is true but whose `result` is the non-null string
`"SUCCESS"` is rejected by the filter (the code only consults `building`
when `result` is falsy), so `getBuilds` returns the empty list where the
claim requires the build to match. -/
theorem C4_running_filter_counterexample :
    getBuilds [⟨46, some "SUCCESS", 460, 10, true⟩]
      ⟨some "RUNNING", none, none, none, none, none, none, none⟩ = [] := by
  have hf : filteredBuilds [⟨46, some "SUCCESS", 460, 10, true⟩]
      ⟨some "RUNNING", none, none, none, none, none, none, none⟩ = [] := by
    decide
  rw [getBuilds, sortedBuilds, hf, List.mergeSort_nil]
  simp

/-- C4 amended: for a non-empty status option `st`, a build passes the
status filter iff it was in the input and either (a) its `result` is falsy
(null or empty), the uppercased option is `"RUNNING"`, and its `building`
flag is true, or (b) not case (a) and its `result` equals the uppercased
option exactly (case-sensitively on the build's own `result`).  On the
spec's test vector (builds 40-45, results `[S,S,F,S,U,S]`),
`getBuilds {status:"SUCCESS"}` returns exactly 45, 43, 41, 40. -/
theorem C4_status_filter_semantics (st : String) (builds : List BuildRec)
    (b : BuildRec) (hst : st ≠ "") :
    (b ∈ applyStatusFilter builds (some st) ↔
      b ∈ builds ∧
        ((resultFalsy b.result = true ∧ jsToUpper st = "RUNNING"
            ∧ b.building = true)
          ∨ (¬(resultFalsy b.result = true ∧ jsToUpper st = "RUNNING")
              ∧ b.result = some (jsToUpper st))))
    ∧ getBuilds demoBuilds
        ⟨some "SUCCESS", none, none, none, none, none, none, none⟩
      = [⟨45, some "SUCCESS", 450, 10, false⟩,
         ⟨43, some "SUCCESS", 430, 10, false⟩,
         ⟨41, some "SUCCESS", 410, 10, false⟩,
         ⟨40, some "SUCCESS", 400, 10, false⟩] := by
  constructor
  · rw [applyStatusFilter, if_neg hst, List.mem_filter]
    refine and_congr_right fun hmem => ?_
    rcases hr : b.result with _ | s
    · by_cases hR : jsToUpper st = "RUNNING" <;>
        simp [statusMatches, resultFalsy, hr, hR]
    · by_cases hs0 : s = ""
      · subst hs0
        by_cases hR : jsToUpper st = "RUNNING" <;>
          simp [statusMatches, resultFalsy, hr, hR]
      · by_cases hR : jsToUpper st = "RUNNING" <;>
          simp [statusMatches, resultFalsy, hr, hs0, hR]
  · have hf : filteredBuilds demoBuilds
        ⟨some "SUCCESS", none, none, none, none, none, none, none⟩
        = [⟨45, some "SUCCESS", 450, 10, false⟩,
           ⟨43, some "SUCCESS", 430, 10, false⟩,
           ⟨41, some "SUCCESS", 410, 10, false⟩,
           ⟨40, some "SUCCESS", 400, 10, false⟩] := by decide
    rw [getBuilds, sortedBuilds, hf, List.mergeSort_of_sorted (by decide)]
    decide

/-- C4 amended witness: instantiation at `st = "success"` (lower case)
and a concrete build list. -/
theorem C4_status_filter_semantics_witness :
    ("success" : String) ≠ ""
    ∧ ((⟨45, some "SUCCESS", 450, 10, false⟩ : BuildRec)
          ∈ applyStatusFilter demoBuilds (some "success") ↔
        (⟨45, some "SUCCESS", 450, 10, false⟩ : BuildRec) ∈ demoBuilds ∧
          ((resultFalsy (some "SUCCESS") = true
              ∧ jsToUpper "success" = "RUNNING"
              ∧ (false = true))
            ∨ (¬(resultFalsy (some "SUCCESS") = true
                  ∧ jsToUpper "success" = "RUNNING")
                ∧ (some "SUCCESS" : Option String)
                    = some (jsToUpper "success")))) :=
  ⟨by decide,
    (C4_status_filter_semantics "success" demoBuilds
      ⟨45, some "SUCCESS", 450, 10, false⟩ (by decide)).1⟩

/-- C5: `getBuilds` output is sorted by the resolved sort key and order;
the sort is stable (builds with equal key stay in post-filter server
order); an offset at or beyond the filtered length yields the empty list,
not an error; unspecified paging/sort options behave as the defaults
offset=0, limit=50, sortKey=number, sortOrder=desc; for any limit other
than an explicit zero the result is exactly the slice
`[offset, offset+limit)` of the sorted list; and on six builds 45..40 the
query `{offset:2, limit:2}` returns the builds ranked third and fourth
(43 then 42). -/
theorem C5_sort_and_paginate (builds : List BuildRec) (o : BuildListOptions) :
    List.Pairwise
      (fun a b =>
        sortLe (o.sortBy.getD .number) (o.sortOrder.getD .desc) a b = true)
      (getBuilds builds o)
    ∧ (∀ v : Int,
        (sortedBuilds builds o).filter
            (fun b => keyOf (o.sortBy.getD .number) b = v)
          = (filteredBuilds builds o).filter
              (fun b => keyOf (o.sortBy.getD .number) b = v))
    ∧ ((filteredBuilds builds o).length ≤ jsOrNat o.offset 0 →
        getBuilds builds o = [])
    ∧ (o.offset = none → o.limit = none → o.sortBy = none → o.sortOrder = none →
        getBuilds builds o
          = getBuilds builds
              ⟨o.status, o.branch, o.startDate, o.endDate, some 0, some 50,
                some .number, some .desc⟩)
    ∧ (o.limit ≠ some 0 →
        getBuilds builds o
          = ((sortedBuilds builds o).drop (o.offset.getD 0)).take
              (o.limit.getD 50))
    ∧ getBuilds demoBuilds ⟨none, none, none, none, some 2, some 2, none, none⟩
        = [⟨43, some "SUCCESS", 430, 10, false⟩,
           ⟨42, some "FAILURE", 420, 10, false⟩] := by
  have hlen : (sortedBuilds builds o).length = (filteredBuilds builds o).length := by
    rw [sortedBuilds]
    exact (List.mergeSort_perm _ _).length_eq
  refine ⟨?_, ?_, ?_, ?_, ?_, ?_⟩
  · have hp := List.sorted_mergeSort
      (sortLe_trans (o.sortBy.getD .number) (o.sortOrder.getD .desc))
      (sortLe_total (o.sortBy.getD .number) (o.sortOrder.getD .desc))
      (filteredBuilds builds o)
    have hsub : List.Sublist (getBuilds builds o) (sortedBuilds builds o) := by
      rw [getBuilds]
      exact (List.take_sublist _ _).trans (List.drop_sublist _ _)
    rw [sortedBuilds] at hsub
    exact hp.sublist hsub
  · intro v
    have h1 : List.Sublist
        ((filteredBuilds builds o).filter
          (fun b => keyOf (o.sortBy.getD .number) b = v))
        (filteredBuilds builds o) := List.filter_sublist _
    have hpw : ((filteredBuilds builds o).filter
          (fun b => keyOf (o.sortBy.getD .number) b = v)).Pairwise
        (fun a b =>
          sortLe (o.sortBy.getD .number) (o.sortOrder.getD .desc) a b = true) := by
      apply List.pairwise_of_forall_mem_list
      intro a ha b hb
      have hav := of_decide_eq_true (List.mem_filter.mp ha).2
      have hbv := of_decide_eq_true (List.mem_filter.mp hb).2
      exact sortLe_refl _ _ a b (hav.trans hbv.symm)
    have h2 := List.sublist_mergeSort
      (sortLe_trans (o.sortBy.getD .number) (o.sortOrder.getD .desc))
      (sortLe_total (o.sortBy.getD .number) (o.sortOrder.getD .desc))
      hpw h1
    have h3 : ((filteredBuilds builds o).filter
          (fun b => keyOf (o.sortBy.getD .number) b = v)).filter
          (fun b => keyOf (o.sortBy.getD .number) b = v)
        = (filteredBuilds builds o).filter
            (fun b => keyOf (o.sortBy.getD .number) b = v) :=
      List.filter_eq_self.mpr (fun a ha => (List.mem_filter.mp ha).2)
    have h4 := h2.filter (fun b => keyOf (o.sortBy.getD .number) b = v)
    rw [h3] at h4
    have h5 : ((sortedBuilds builds o).filter
          (fun b => keyOf (o.sortBy.getD .number) b = v)).Perm
        ((filteredBuilds builds o).filter
          (fun b => keyOf (o.sortBy.getD .number) b = v)) := by
      rw [sortedBuilds]
      exact (List.mergeSort_perm _ _).filter _
    rw [sortedBuilds]
    exact (h4.eq_of_length h5.length_eq.symm).symm
  · intro h
    rw [getBuilds, List.drop_eq_nil_of_le (by omega), List.take_nil]
  · intro h1 h2 h3 h4
    rw [getBuilds, getBuilds, sortedBuilds, sortedBuilds]
    simp [filteredBuilds, h1, h2, h3, h4, jsOrNat]
  · intro h
    rw [getBuilds]
    have hoff : jsOrNat o.offset 0 = o.offset.getD 0 := by
      rcases o.offset with _ | n
      · rfl
      · by_cases hn : n = 0 <;> simp [jsOrNat, hn]
    have hlim : jsOrNat o.limit 50 = o.limit.getD 50 := by
      rcases hl : o.limit with _ | n
      · rfl
      · have hn : n ≠ 0 := fun h0 => h (by rw [hl, h0])
        simp [jsOrNat, hn]
    rw [hoff, hlim]
  · have hf : filteredBuilds demoBuilds
        ⟨none, none, none, none, some 2, some 2, none, none⟩ = demoBuilds := by
      decide
    rw [getBuilds, sortedBuilds, hf, List.mergeSort_of_sorted (by decide)]
    decide

/-- C5 witness: on the demo builds with offset 100, the filtered length
is at most the offset and the result is the empty list. -/
theorem C5_sort_and_paginate_witness :
    (filteredBuilds demoBuilds
        ⟨none, none, none, none, some 100, none, none, none⟩).length
      ≤ jsOrNat (some 100) 0
    ∧ getBuilds demoBuilds
        ⟨none, none, none, none, some 100, none, none, none⟩ = [] :=
  ⟨by decide,
    (C5_sort_and_paginate demoBuilds
      ⟨none, none, none, none, some 100, none, none, none⟩).2.2.1 (by decide)⟩

/-- C10: an explicit `limit: 0` is falsy in `options.limit || 50`, so it is
silently replaced by the default 50: the result equals the call with no
limit at all, and whenever the filter stage keeps at least one build and
the offset resolves to zero, the result is non-empty rather than the empty
list a literal reading of `limit: 0` would give. -/
theorem C10_limit_zero_uses_default (builds : List BuildRec)
    (o : BuildListOptions) (h : o.limit = some 0) :
    getBuilds builds o
      = getBuilds builds
          ⟨o.status, o.branch, o.startDate, o.endDate, o.offset, none,
            o.sortBy, o.sortOrder⟩
    ∧ (jsOrNat o.offset 0 = 0 → filteredBuilds builds o ≠ [] →
        getBuilds builds o ≠ []) := by
  constructor
  · rw [getBuilds, getBuilds, h]
    simp [sortedBuilds, filteredBuilds, jsOrNat]
  · intro h0 hne
    rw [getBuilds, h0, h, List.drop_zero]
    show ¬ List.take 50 (sortedBuilds builds o) = []
    intro htake
    have hlen : (sortedBuilds builds o).length = (filteredBuilds builds o).length := by
      rw [sortedBuilds]
      exact (List.mergeSort_perm _ _).length_eq
    have hpos : 0 < (filteredBuilds builds o).length :=
      List.length_pos.mpr hne
    have hlen2 : (List.take 50 (sortedBuilds builds o)).length = 0 := by
      rw [htake]
      rfl
    rw [List.length_take, hlen] at hlen2
    omega

/-- C10 witness: instantiation at the demo builds with an explicit
`limit: 0`. -/
theorem C10_limit_zero_uses_default_witness :
    (getBuilds demoBuilds ⟨none, none, none, none, none, some 0, none, none⟩
        = getBuilds demoBuilds
            ⟨none, none, none, none, none, none, none, none⟩)
    ∧ (jsOrNat (none : Option Nat) 0 = 0 →
        filteredBuilds demoBuilds
            ⟨none, none, none, none, none, some 0, none, none⟩ ≠ [] →
        getBuilds demoBuilds
            ⟨none, none, none, none, none, some 0, none, none⟩ ≠ []) :=
  C10_limit_zero_uses_default demoBuilds
    ⟨none, none, none, none, none, some 0, none, none⟩ rfl

theorem runStream_consumed_pos (s : Nat) (x : StreamIter)
    (xs : List StreamIter) : 1 ≤ (runStream s (x :: xs)).consumed := by
  rw [runStream]
  rcases x.log with _ | r
  · simp
  · rcases x.info with _ | bi
    · simp
    · by_cases hc : (!bi.building && !r.hasMore) = true <;> simp [hc]

/-- C2 counterexample: a scripted second chunk reporting size 5 while the
cursor stands at 10 is accepted silently — the stream emits both chunks,
resets the cursor to 5, and terminates in the Done state instead of
failing with any protocol error. -/
theorem C2_backward_size_counterexample :
    runStream 0
      [⟨.ok ⟨"a", true, 10⟩, .ok ⟨none, true⟩⟩,
       ⟨.ok ⟨"b", false, 5⟩, .ok ⟨some "SUCCESS", false⟩⟩]
      = ⟨["a", "b"], [10, 5], 2, 5, .done (some "SUCCESS")⟩ := by
  decide

/-- C2 amended: the loop performs no monotonicity check at all: after every
completed fetch the cursor is set verbatim to the reported size (the cursor
trace equals the sizes of the consumed successful fetches, even when they
decrease), and an error outcome arises only from a scripted transport
error, never from a size regression. -/
theorem C2_cursor_follows_reported_size (start : Nat)
    (script : List StreamIter) :
    (runStream start script).cursors
      = (((script.take (runStream start script).consumed).filterMap
          (fun it => okPart it.log)).map (fun r => r.size))
    ∧ ((∀ it ∈ script, (∀ e, it.log ≠ .error e) ∧ (∀ e, it.info ≠ .error e)) →
        (runStream start script).outcome ≠ .errored) := by
  induction script generalizing start with
  | nil => simp [runStream]
  | cons it rest ih =>
    rw [runStream]
    rcases hlog : it.log with e | r
    · refine ⟨by simp [hlog, okPart], ?_⟩
      intro h
      exact absurd hlog (by simpa using (h it (List.mem_cons_self it rest)).1 e)
    · rcases hinfo : it.info with e | bi
      · refine ⟨by simp [hlog, okPart], ?_⟩
        intro h
        exact absurd hinfo (by simpa using (h it (List.mem_cons_self it rest)).2 e)
      · by_cases hc : (!bi.building && !r.hasMore) = true
        · refine ⟨by simp [hc, hlog, okPart], ?_⟩
          intro h
          simp [hc]
        · refine ⟨?_, ?_⟩
          · simp only [hc]
            simp only [Bool.false_eq_true, if_false]
            have h1 := (ih r.size).1
            simp only [hlog, okPart, List.take_succ_cons, h1]
            rw [Nat.add_comm 1 ((runStream r.size rest).consumed),
              List.take_succ_cons]
            simp [hlog, okPart]
          · intro h
            simp only [hc]
            simp only [Bool.false_eq_true, if_false]
            exact (ih r.size).2 fun x hx => h x (List.mem_cons_of_mem it hx)

/-- C2 amended witness: instantiation at the backward-size script. -/
theorem C2_cursor_follows_reported_size_witness :
    ((runStream 0
        [⟨.ok ⟨"a", true, 10⟩, .ok ⟨none, true⟩⟩,
         ⟨.ok ⟨"b", false, 5⟩, .ok ⟨some "SUCCESS", false⟩⟩]).cursors
      = ((([(⟨.ok ⟨"a", true, 10⟩, .ok ⟨none, true⟩⟩ : StreamIter),
          ⟨.ok ⟨"b", false, 5⟩, .ok ⟨some "SUCCESS", false⟩⟩].take
            (runStream 0
              [⟨.ok ⟨"a", true, 10⟩, .ok ⟨none, true⟩⟩,
               ⟨.ok ⟨"b", false, 5⟩,
                 .ok ⟨some "SUCCESS", false⟩⟩]).consumed).filterMap
          (fun it => okPart it.log)).map (fun r => r.size)))
    ∧ ((∀ it ∈ [(⟨.ok ⟨"a", true, 10⟩, .ok ⟨none, true⟩⟩ : StreamIter),
          ⟨.ok ⟨"b", false, 5⟩, .ok ⟨some "SUCCESS", false⟩⟩],
          (∀ e, it.log ≠ .error e) ∧ (∀ e, it.info ≠ .error e)) →
        (runStream 0
          [⟨.ok ⟨"a", true, 10⟩, .ok ⟨none, true⟩⟩,
           ⟨.ok ⟨"b", false, 5⟩,
             .ok ⟨some "SUCCESS", false⟩⟩]).outcome ≠ .errored) :=
  C2_cursor_follows_reported_size 0
    [⟨.ok ⟨"a", true, 10⟩, .ok ⟨none, true⟩⟩,
     ⟨.ok ⟨"b", false, 5⟩, .ok ⟨some "SUCCESS", false⟩⟩]

/-- C8: the loop stops at an iteration (Done, one iteration consumed)
exactly when that iteration reports the build no longer running AND no
more data pending; and on a script of two chunk responses whose second
reports `hasMore=false` with the build already complete, the stream emits
exactly the two chunks and terminates in the Done state after consuming
exactly two scripted iterations — any further scripted responses are
never requested. -/
theorem C8_termination_condition (start : Nat) (it : StreamIter)
    (rest : List StreamIter) (r : ProgRes) (bi : StreamBuildInfo)
    (hlog : it.log = .ok r) (hinfo : it.info = .ok bi) :
    (((runStream start (it :: rest)).outcome = .done bi.result
        ∧ (runStream start (it :: rest)).consumed = 1)
      ↔ (bi.building = false ∧ r.hasMore = false))
    ∧ (∀ (t1 t2 : String) (n1 n2 : Nat) (res1 res2 : Option String)
        (rest2 : List StreamIter), t1 ≠ "" → t2 ≠ "" →
        runStream start
            (⟨.ok ⟨t1, true, n1⟩, .ok ⟨res1, true⟩⟩
              :: ⟨.ok ⟨t2, false, n2⟩, .ok ⟨res2, false⟩⟩ :: rest2)
          = ⟨[t1, t2], [n1, n2], 2, n2, .done res2⟩) := by
  constructor
  · rw [runStream, hlog, hinfo]
    by_cases hc : (!bi.building && !r.hasMore) = true
    · simp only [hc, if_true]
      constructor
      · intro hdone
        simpa using hc
      · intro hcond
        simp
    · simp only [hc]
      simp only [Bool.false_eq_true, if_false]
      constructor
      · intro hdone
        rcases rest with _ | ⟨y, ys⟩
        · exact absurd hdone.1 (by simp [runStream])
        · have := runStream_consumed_pos r.size y ys
          have h2 := hdone.2
          simp at h2
          omega
      · intro hcond
        exact absurd (by simp [hcond.1, hcond.2]) hc
  · intro t1 t2 n1 n2 res1 res2 rest2 h1 h2
    rw [runStream]
    simp only [if_false]
    rw [runStream]
    simp [h1, h2]

/-- C8 witness: instantiation at a one-iteration script whose chunk
reports no more data and whose build info reports completion. -/
theorem C8_termination_condition_witness :
    ((⟨.ok ⟨"x", false, 7⟩, .ok ⟨some "SUCCESS", false⟩⟩ : StreamIter).log
        = .ok ⟨"x", false, 7⟩)
    ∧ (((runStream 0
          [⟨.ok ⟨"x", false, 7⟩, .ok ⟨some "SUCCESS", false⟩⟩]).outcome
            = .done (some "SUCCESS")
        ∧ (runStream 0
            [⟨.ok ⟨"x", false, 7⟩, .ok ⟨some "SUCCESS", false⟩⟩]).consumed = 1)
      ↔ (false = false ∧ false = false)) :=
  ⟨rfl,
    (C8_termination_condition 0
      ⟨.ok ⟨"x", false, 7⟩, .ok ⟨some "SUCCESS", false⟩⟩ [] ⟨"x", false, 7⟩
      ⟨some "SUCCESS", false⟩ rfl rfl).1⟩

/-- C1 counterexample: a successful wfapi response whose `stages` array is
empty yields the empty stage sequence even though the build-metadata fetch
would succeed — contradicting the guarantee of at least one StageNode for
any existing build. -/
theorem C1_empty_stages_counterexample :
    getWorkflowSteps (.ok ⟨some []⟩) (.ok ⟨none, none, false, none, none⟩)
      = .ok [] := rfl

/-- C1 amended: whenever the build-metadata fetch succeeds and the wfapi
response is not a success carrying an explicitly empty `stages` array, the
resolver returns a non-empty stage sequence without error; and a hard
error occurs exactly when the wfapi path yields no stages (fetch failure
or missing `stages` field) while the build-metadata fetch fails. -/
theorem C1_stage_fallback (wfapi : Except Unit WfapiData)
    (build : Except Unit BuildData) :
    (∀ bd, build = .ok bd →
      (∀ d, wfapi = .ok d → d.stages ≠ some []) →
      ∃ ss, getWorkflowSteps wfapi build = .ok ss ∧ ss ≠ [])
    ∧ ((∃ e, getWorkflowSteps wfapi build = .error e) ↔
        ((∃ e, build = .error e)
          ∧ ((∃ e, wfapi = .error e) ∨ ∃ d, wfapi = .ok d ∧ d.stages = none))) := by
  constructor
  · intro bd hb hw
    subst hb
    rcases wfapi with e | d
    · rw [getWorkflowSteps, workflowFallback]
      by_cases hf : hasFlowAction bd = true <;> simp [hf]
    · rcases hs : d.stages with _ | stages
      · rw [getWorkflowSteps, hs, workflowFallback]
        by_cases hf : hasFlowAction bd = true <;> simp [hf]
      · rcases stages with _ | ⟨st, sts⟩
        · exact absurd hs (hw d rfl)
        · rw [getWorkflowSteps, hs]
          exact ⟨_, rfl, by simp⟩
  · constructor
    · rintro ⟨e, he⟩
      rcases build with eb | bd
      · rcases wfapi with ew | d
        · exact ⟨⟨eb, rfl⟩, Or.inl ⟨ew, rfl⟩⟩
        · rcases hs : d.stages with _ | stages
          · exact ⟨⟨eb, rfl⟩, Or.inr ⟨d, rfl, hs⟩⟩
          · rw [getWorkflowSteps, hs] at he
            exact absurd he (by simp)
      · rcases wfapi with ew | d
        · rw [getWorkflowSteps, workflowFallback] at he
          by_cases hf : hasFlowAction bd = true <;> simp [hf] at he
        · rcases hs : d.stages with _ | stages
          · rw [getWorkflowSteps, hs, workflowFallback] at he
            by_cases hf : hasFlowAction bd = true <;> simp [hf] at he
          · rw [getWorkflowSteps, hs] at he
            exact absurd he (by simp)
    · rintro ⟨⟨eb, hb⟩, hw⟩
      subst hb
      rcases hw with ⟨ew, hww⟩ | ⟨d, hd, hs⟩
      · subst hww
        exact ⟨eb, rfl⟩
      · subst hd
        rw [getWorkflowSteps, hs, workflowFallback]
        exact ⟨eb, rfl⟩

/-- C1 amended witness: instantiation at a failed wfapi fetch and a
successful metadata fetch carrying no flow marker. -/
theorem C1_stage_fallback_witness :
    ((.ok ⟨none, some "SUCCESS", false, some 100, some 5⟩ :
        Except Unit BuildData) = .ok ⟨none, some "SUCCESS", false, some 100, some 5⟩)
    ∧ ∃ ss, getWorkflowSteps (.error ())
        (.ok ⟨none, some "SUCCESS", false, some 100, some 5⟩) = .ok ss ∧ ss ≠ [] :=
  ⟨rfl,
    (C1_stage_fallback (.error ())
      (.ok ⟨none, some "SUCCESS", false, some 100, some 5⟩)).1
      ⟨none, some "SUCCESS", false, some 100, some 5⟩ rfl
      (fun d hd => absurd hd (by simp))⟩

theorem joinSlash_append_one (segs : List JStr) (name : JStr)
    (hne : segs ≠ []) :
    joinSlash (segs ++ [name]) = joinSlash segs ++ '/' :: name := by
  induction segs with
  | nil => exact absurd rfl hne
  | cons s rest ih =>
    rcases rest with _ | ⟨r, rs⟩
    · simp [joinSlash]
    · rw [show (s :: r :: rs) ++ [name] = s :: ((r :: rs) ++ [name]) from rfl]
      rw [show (r :: rs) ++ [name] = r :: (rs ++ [name]) from rfl]
      rw [joinSlash]
      rw [show r :: (rs ++ [name]) = (r :: rs) ++ [name] from rfl]
      rw [ih (by simp), joinSlash]
      simp

mutual

theorem walkResp_preorder (segs : List JStr) (resp : Option (List SrvNode))
    (hsegs : ∀ s ∈ segs, s ≠ [] ∧ '/' ∉ s) (hresp : respClean resp = true) :
    walkResp (joinSlash segs) resp = preorderResp segs resp := by
  match resp with
  | none => rw [walkResp, preorderResp]
  | some items =>
    rw [walkResp, preorderResp]
    exact walkList_preorder segs items hsegs (by rw [respClean] at hresp; exact hresp)

theorem walkList_preorder (segs : List JStr) (items : List SrvNode)
    (hsegs : ∀ s ∈ segs, s ≠ [] ∧ '/' ∉ s) (hitems : listClean items = true) :
    walkList (joinSlash segs) items = preorderList segs items := by
  match items with
  | [] => rw [walkList, preorderList]
  | item :: rest =>
    rw [walkList, preorderList]
    rw [listClean, Bool.and_eq_true] at hitems
    rw [processItem_preorder segs item hsegs hitems.1,
      walkList_preorder segs rest hsegs hitems.2]

theorem processItem_preorder (segs : List JStr) (n : SrvNode)
    (hsegs : ∀ s ∈ segs, s ≠ [] ∧ '/' ∉ s) (hn : nodeClean n = true) :
    processItem (joinSlash segs) n = preorderItem segs n := by
  match n with
  | .mk name cls url color sub =>
    rw [nodeClean, Bool.and_eq_true, Bool.and_eq_true] at hn
    have hname : name ≠ [] := of_decide_eq_true hn.1.1
    have hslash : '/' ∉ name := of_decide_eq_true hn.1.2
    have hsub : respClean sub = true := hn.2
    have hsegs2 : ∀ s ∈ segs ++ [name], s ≠ [] ∧ '/' ∉ s := by
      intro s hs
      rcases List.mem_append.mp hs with hs | hs
      · exact hsegs s hs
      · rcases List.mem_singleton.mp hs with rfl
        exact ⟨hname, hslash⟩
    rcases segs with _ | ⟨s0, ss⟩
    · rw [processItem, preorderItem]
      have h1 := walkResp_preorder [name] sub (by simpa using ⟨hname, hslash⟩) hsub
      rcases hfold : isFolder cls with _ | _
      · simp [hfold, joinSlash]
      · simp only [hfold, joinSlash, if_true]
        simpa [joinSlash] using h1
    · have hjne : joinSlash (s0 :: ss) ≠ [] :=
        joinSlash_cons_ne_nil s0 ss (hsegs s0 (List.mem_cons_self s0 ss)).1
      rw [processItem, preorderItem]
      simp only [if_neg hjne]
      rw [← joinSlash_append_one (s0 :: ss) name (by simp)]
      rw [splitSlash_joinSlash (s0 :: ss) (by simp)
        (fun s hs => (hsegs s hs).2)]
      rcases hfold : isFolder cls with _ | _
      · simp [hfold]
      · simp only [hfold, if_true]
        have h1 := walkResp_preorder ((s0 :: ss) ++ [name]) sub hsegs2 hsub
        rw [h1]

end

/-- C6: for clean trees (names non-empty and delimiter-free, the spec's
JobPath invariant), the walk over the encoded string path equals the
spec's pre-order flattening over segment lists: every folder node is
immediately followed by all of its descendants, sibling order is
preserved, and each node's depth is the number of segments of its parent
path; on the concrete scenario (folder with two jobs plus a sibling job)
the walk returns the four nodes in pre-order with depths 0, 1, 1, 0. -/
theorem C6_walk_preorder (segs : List JStr) (resp : Option (List SrvNode))
    (hsegs : ∀ s ∈ segs, s ≠ [] ∧ '/' ∉ s) (hresp : respClean resp = true) :
    walkResp (joinSlash segs) resp = preorderResp segs resp
    ∧ walkResp [] demoTree
        = [⟨['b', 'e'], ['b', 'e'], .folder, ['u', '1'], 0, none⟩,
           ⟨['a'], ['b', 'e', '/', 'a'], .job, ['u', '2'], 1, some ['b']⟩,
           ⟨['c'], ['b', 'e', '/', 'c'], .job, ['u', '3'], 1, none⟩,
           ⟨['d'], ['d'], .job, ['u', '4'], 0, none⟩] :=
  ⟨walkResp_preorder segs resp hsegs hresp, by decide⟩

/-- C6 witness: instantiation at a one-segment parent path and the
concrete demo tree. -/
theorem C6_walk_preorder_witness :
    (∀ s ∈ ([['x']] : List JStr), s ≠ [] ∧ '/' ∉ s)
    ∧ respClean demoTree = true
    ∧ walkResp (joinSlash [['x']]) demoTree = preorderResp [['x']] demoTree :=
  ⟨by decide, by decide,
    (C6_walk_preorder [['x']] demoTree (by decide) (by decide)).1⟩

theorem walkList_append (p : JStr) (l1 l2 : List SrvNode) :
    walkList p (l1 ++ l2) = walkList p l1 ++ walkList p l2 := by
  induction l1 with
  | nil => simp [walkList]
  | cons x xs ih =>
    rw [List.cons_append, walkList, walkList, ih, List.append_assoc]

/-- C7: a failed root request yields the empty walk; a failed request for
one folder's subtree does not abort the walk — the result is exactly the
nodes of the earlier siblings, then the folder's own node with zero
descendants, then the nodes of the later siblings — and in that scenario
the overall result is never empty. -/
theorem C7_subtree_failure (p : JStr) (pre post : List SrvNode)
    (name cls url : JStr) (color : Option JStr) (hf : isFolder cls = true) :
    walkResp p none = []
    ∧ walkResp p (some (pre ++ .mk name cls url color none :: post))
        = walkList p pre
          ++ ⟨name, if p = [] then name else p ++ '/' :: name, .folder, url,
              if p = [] then 0 else (splitSlash p).length, color⟩
            :: walkList p post
    ∧ walkResp p (some (pre ++ .mk name cls url color none :: post)) ≠ [] := by
  have hmid : processItem p (.mk name cls url color none)
      = [⟨name, if p = [] then name else p ++ '/' :: name, .folder, url,
          if p = [] then 0 else (splitSlash p).length, color⟩] := by
    rw [processItem]
    simp [hf, walkResp]
  have hmain : walkResp p (some (pre ++ .mk name cls url color none :: post))
      = walkList p pre
        ++ ⟨name, if p = [] then name else p ++ '/' :: name, .folder, url,
            if p = [] then 0 else (splitSlash p).length, color⟩
          :: walkList p post := by
    rw [walkResp, walkList_append, walkList, hmid]
    simp
  refine ⟨rfl, hmain, ?_⟩
  rw [hmain]
  simp

/-- C7 witness: instantiation at the root path with one sibling job on
each side of the failed folder. -/
theorem C7_subtree_failure_witness :
    isFolder hmFolderCls = true
    ∧ (walkResp [] none = []
      ∧ walkResp []
          (some ([SrvNode.mk ['d'] ['j'] ['u'] none none]
            ++ .mk ['f'] hmFolderCls ['v'] none none
              :: [SrvNode.mk ['e'] ['j'] ['w'] none none]))
        = walkList [] [SrvNode.mk ['d'] ['j'] ['u'] none none]
          ++ ⟨['f'],
              if ([] : JStr) = [] then ['f'] else [] ++ '/' :: ['f'],
              .folder, ['v'],
              if ([] : JStr) = [] then 0 else (splitSlash []).length, none⟩
            :: walkList [] [SrvNode.mk ['e'] ['j'] ['w'] none none]
      ∧ walkResp []
          (some ([SrvNode.mk ['d'] ['j'] ['u'] none none]
            ++ .mk ['f'] hmFolderCls ['v'] none none
              :: [SrvNode.mk ['e'] ['j'] ['w'] none none])) ≠ []) :=
  ⟨by decide,
    C7_subtree_failure [] [SrvNode.mk ['d'] ['j'] ['u'] none none]
      [SrvNode.mk ['e'] ['j'] ['w'] none none] ['f'] hmFolderCls ['v'] none
      (by decide)⟩

end Butler
